import Mathlib

/-!
Verification of the reactive state core of the `ghdash` terminal dashboard.

Strings from the Rust sources are modelled as `List Char`; Rust `HashMap` /
`HashSet` fields are modelled as association lists / lists of keys (the code
only ever observes them through lookup, membership, insert and remove, and
sorts the key set before using its order).  Timestamps (`chrono` values) are
modelled as integers (seconds).  Each definition mirrors one function of the
source tree; theorems at the end of the file settle the specification claims.
-/

namespace Ghdash

/-! ## Comparators (Rust `Ord::cmp` / `sort_by`) -/

/-- `Nat` comparison, mirroring Rust's `u32::cmp`. -/
def natCmp (a b : Nat) : Ordering :=
  if a < b then .lt else if a = b then .eq else .gt

/-- `Int` comparison, mirroring Rust's `i64::cmp` / `DateTime::cmp`. -/
def intCmp (a b : Int) : Ordering :=
  if a < b then .lt else if a = b then .eq else .gt

/-- Character comparison by code point (Rust compares strings bytewise;
for UTF-8 this agrees with code-point order). -/
def charCmp (a b : Char) : Ordering := natCmp a.toNat b.toNat

/-- Lexicographic comparison of strings, mirroring Rust's `str::cmp`. -/
def lexCmp : List Char → List Char → Ordering
  | [], [] => .eq
  | [], _ :: _ => .lt
  | _ :: _, [] => .gt
  | a :: xs, b :: ys =>
    match charCmp a b with
    | .eq => lexCmp xs ys
    | o => o

/-- The non-strict order induced by a comparator. -/
def cmpLe {α : Type} (cmp : α → α → Ordering) (a b : α) : Prop :=
  cmp a b ≠ .gt

/-! ## Stable insertion sort (model of Rust's stable `sort` / `sort_by`) -/

/-- Insert `x` in front of the first element it need not follow; equal
elements keep the already-present element first, matching the stability
guarantee of Rust's `sort_by`. -/
def insertBy {α : Type} (cmp : α → α → Ordering) (x : α) : List α → List α
  | [] => [x]
  | y :: ys => if cmp x y ≠ .gt then x :: y :: ys else y :: insertBy cmp x ys

/-- Stable sort by a comparator. -/
def sortBy {α : Type} (cmp : α → α → Ordering) : List α → List α
  | [] => []
  | x :: xs => insertBy cmp x (sortBy cmp xs)

/-! ## Substring search (Rust `str::find` / `str::contains`) -/

/-- Index of the first occurrence of `needle` in `hay` (Rust `str::find`). -/
def findSub (needle : List Char) : List Char → Option Nat
  | [] => if needle.isPrefixOf ([] : List Char) then some 0 else none
  | c :: t => if needle.isPrefixOf (c :: t) then some 0
              else (findSub needle t).map (· + 1)

/-- Rust `str::contains`. -/
def containsSub (hay needle : List Char) : Bool := (findSub needle hay).isSome

/-- Lower-casing, mirroring Rust's `str::to_lowercase` character-wise. -/
def toLowerStr (s : List Char) : List Char := s.map Char.toLower

/-! ## Glob matching (`event_loop.rs`, `glob_match`) -/

/-- Prepend a character to the first part of a split. -/
def consHead (c : Char) : List (List Char) → List (List Char)
  | [] => [[c]]
  | p :: ps => (c :: p) :: ps

/-- Rust `pattern.split('*')`: the literal parts between the stars. -/
def splitStar : List Char → List (List Char)
  | [] => [[]]
  | c :: rest =>
    if c = '*' then [] :: splitStar rest else consHead c (splitStar rest)

/-- The part-matching loop of `glob_match`: walks the parts left to right,
looking each non-empty part up with `find` in the text from position `pos`
on; the flag records whether we are still at enumerate-index `0`, where a
non-zero match offset is rejected.  Returns the final position, or `none`
on failure. -/
def globGo : List (List Char) → List Char → Nat → Bool → Option Nat
  | [], _, pos, _ => some pos
  | part :: rest, text, pos, isFirst =>
    if part = [] then globGo rest text pos false
    else
      match findSub part (text.drop pos) with
      | none => none
      | some idx =>
        if isFirst ∧ idx ≠ 0 then none
        else globGo rest text (pos + idx + part.length) false

/-- `glob_match` from `event_loop.rs`: split on `'*'`; a pattern without a
star demands exact equality; otherwise run the matching loop and, unless the
pattern ends in `'*'`, demand that the text ends exactly at the final
position. -/
def glob_match (pattern text : List Char) : Bool :=
  let parts := splitStar pattern
  if parts.length = 1 then decide (pattern = text)
  else
    match globGo parts text 0 true with
    | none => false
    | some pos =>
      if pattern.getLast? = some '*' then true else decide (pos = text.length)

/-! ### Spec-side glob semantics

The specification words the filter as: `*` matches any substring; the
literal segments between stars are matched left-to-right in order (each at
its leftmost occurrence in the remaining text); a pattern not ending in `*`
requires the text to end exactly where the last literal segment ends; a
pattern without `*` requires exact equality.  The following definitions are
written from those words, to be compared with `glob_match` above. -/

/-- Consume the leftmost occurrence of `s` in `t`, returning the suffix of
`t` after it. -/
def dropToAfter (s : List Char) : List Char → Option (List Char)
  | [] => if s.isPrefixOf ([] : List Char) then some [] else none
  | c :: t =>
    if s.isPrefixOf (c :: t) then some ((c :: t).drop s.length)
    else dropToAfter s t

/-- Match literal segments left to right, each at its leftmost occurrence,
returning the text remaining after the last one. -/
def matchSegsFrom : List (List Char) → List Char → Option (List Char)
  | [], t => some t
  | s :: rest, t =>
    match dropToAfter s t with
    | none => none
    | some t' => matchSegsFrom rest t'

/-- The literal (non-empty) segments of a pattern. -/
def segsOf (pattern : List Char) : List (List Char) :=
  (splitStar pattern).filter (fun p => p ≠ [])

/-- The final acceptance test of `glob_match` on the loop's result. -/
def globTail (p t : List Char) (o : Option Nat) : Bool :=
  match o with
  | none => false
  | some pos => if p.getLast? = some '*' then true else decide (pos = t.length)

/-- The final acceptance test of the spec-side semantics on the remaining
text. -/
def specTail (p : List Char) (r : Option (List Char)) : Bool :=
  match r with
  | none => false
  | some rr => decide (p.getLast? = some '*') || decide (rr = [])

/-- The text remaining after consuming the literal segments: the first
segment is anchored at the start unless the pattern begins with `*`; the
rest are matched left to right at their leftmost occurrences. -/
def globSpecRem (pattern text : List Char) : List (List Char) → Option (List Char)
  | [] => some text
  | s :: rest =>
    if pattern.head? = some '*' then matchSegsFrom (s :: rest) text
    else if s.isPrefixOf text then matchSegsFrom rest (text.drop s.length)
    else none

/-- Declarative glob semantics, from the specification's words: without a
star, exact equality; otherwise the first segment is anchored at the start
unless the pattern begins with `*`, the remaining segments are matched left
to right at their leftmost occurrences, and unless the pattern ends with
`*` the text must end exactly where the last segment ends. -/
def globSpec (pattern text : List Char) : Bool :=
  if '*' ∈ pattern then
    specTail pattern (globSpecRem pattern text (segsOf pattern))
  else decide (pattern = text)

/-! ## Data model (`github/models.rs`, `app/state.rs`, `app/actions.rs`) -/

/-- `RateLimit` from `models.rs`. -/
structure RateLimit where
  remaining : Nat
  limit : Nat
  reset_at : Option Int
deriving DecidableEq

/-- `Repo` from `models.rs`. -/
structure Repo where
  name : List Char
  owner : List Char
  url : List Char
  description : Option (List Char)
  open_pr_count : Nat
  is_archived : Bool
deriving DecidableEq

/-- `Repo::full_name`. -/
def Repo.full_name (r : Repo) : List Char := r.owner ++ '/' :: r.name

/-- `PullRequest` from `models.rs`; timestamps are seconds. -/
structure PullRequest where
  number : Nat
  title : List Char
  author : List Char
  repo_owner : List Char
  repo_name : List Char
  url : List Char
  created_at : Int
  updated_at : Int
  is_draft : Bool
  additions : Nat
  deletions : Nat
  review_decision : Option (List Char)
  labels : List (List Char)
deriving DecidableEq

/-- `PullRequest::repo_full_name`. -/
def PullRequest.repo_full_name (pr : PullRequest) : List Char :=
  pr.repo_owner ++ '/' :: pr.repo_name

/-- `OrgData` from `state.rs`. -/
structure OrgData where
  name : List Char
  repos : List Repo
deriving DecidableEq

/-- `FocusedPane` from `state.rs`. -/
inductive FocusedPane where
  | Navigation
  | Content
deriving DecidableEq

/-- `ContentView` from `state.rs`. -/
inductive ContentView where
  | OrgOverview (org : List Char)
  | RepoPrList (owner name : List Char)
  | AllOpenPrs
  | Inbox
deriving DecidableEq

/-- `NavNode` from `state.rs`. -/
inductive NavNode where
  | Org (org : List Char)
  | Repo (owner name : List Char) (open_prs : Nat)
  | AllPrs
  | MyInbox
deriving DecidableEq

/-- `AppState` from `state.rs`.  The `orgs` hash map is modelled as an
association list, `nav_expanded` and `loading_orgs` hash sets as lists. -/
structure AppState where
  orgs : List (List Char × OrgData)
  all_open_prs : List PullRequest
  inbox : List PullRequest
  viewer_login : List Char
  rate_limit : RateLimit
  last_refresh : Option Int
  nav_nodes : List NavNode
  nav_cursor : Nat
  nav_expanded : List (List Char)
  focused_pane : FocusedPane
  content_view : ContentView
  content_cursor : Nat
  search_active : Bool
  search_query : List Char
  loading : Bool
  loading_orgs : List (List Char)
  error_message : Option (List Char)
  should_quit : Bool
deriving DecidableEq

/-- `DataPayload` from `actions.rs`. -/
inductive DataPayload where
  | OrgRepos (org : List Char) (repos : List Repo) (rate_limit : RateLimit)
  | InboxPrs (prs : List PullRequest) (rate_limit : RateLimit)
  | AllOpenPrs (prs : List PullRequest) (rate_limit : RateLimit)
deriving DecidableEq

/-- `Action` from `actions.rs`. -/
inductive Action where
  | MoveUp
  | MoveDown
  | Select
  | Back
  | SwitchPane
  | Refresh
  | OpenInBrowser
  | ToggleSearch
  | SearchInput (c : Char)
  | SearchBackspace
  | SearchClear
  | DataLoaded (p : DataPayload)
  | LoadError (msg : List Char)
  | DismissError
  | Quit
  | Tick
deriving DecidableEq

/-- `SideEffect` from `actions.rs`. -/
inductive SideEffect where
  | RefreshAll
  | FetchOrgRepos (org : List Char)
  | FetchUserRepos (user : List Char)
  | FetchInbox
  | FetchAllOpenPrs
  | OpenUrl (url : List Char)
deriving DecidableEq

/-! ## Association-list operations for the `orgs` hash map -/

/-- `HashMap::get` on the `orgs` map. -/
def lookupOrg (orgs : List (List Char × OrgData)) (k : List Char) : Option OrgData :=
  match orgs.find? (fun p => decide (p.1 = k)) with
  | some p => some p.2
  | none => none

/-- `HashMap::insert` on the `orgs` map: replace in place or append. -/
def insertOrg (orgs : List (List Char × OrgData)) (k : List Char) (v : OrgData) :
    List (List Char × OrgData) :=
  match orgs with
  | [] => [(k, v)]
  | p :: rest => if p.1 = k then (k, v) :: rest else p :: insertOrg rest k v

/-- `HashSet::insert` on a set modelled as a list (append if absent). -/
def setInsert (s : List (List Char)) (x : List Char) : List (List Char) :=
  if x ∈ s then s else s ++ [x]

/-- `HashSet::remove` on a set modelled as a list. -/
def setRemove (s : List (List Char)) (x : List Char) : List (List Char) :=
  s.filter (fun y => decide (y ≠ x))

/-! ## `AppState` methods (`app/state.rs`) -/

/-- The repo comparator of `rebuild_nav_tree`: open-PR count descending,
ties broken by name ascending
(`b.open_pr_count.cmp(&a.open_pr_count).then(a.name.cmp(&b.name))`). -/
def repoCmp (a b : Repo) : Ordering :=
  (natCmp b.open_pr_count a.open_pr_count).then (lexCmp a.name b.name)

/-- The repo nodes emitted under one expanded organization: non-archived
repos, sorted by `repoCmp`, rendered as `NavNode.Repo` entries. -/
def navRepoNodes (data : OrgData) : List NavNode :=
  (sortBy repoCmp (data.repos.filter (fun r => !r.is_archived))).map
    (fun r => NavNode.Repo r.owner r.name r.open_pr_count)

/-- The block of nodes one organization name contributes to the tree:
its own `Org` node, followed (when it is expanded and present in the map)
by its repo nodes. -/
def navOrgBlock (s : AppState) (n : List Char) : List NavNode :=
  NavNode.Org n ::
    (if n ∈ s.nav_expanded then
      match lookupOrg s.orgs n with
      | some data => navRepoNodes data
      | none => []
    else [])

/-- `AppState::rebuild_nav_tree`: two virtual leading nodes, then the
organizations sorted by name with their repo blocks, then the cursor clamp. -/
def rebuild_nav_tree (s : AppState) : AppState :=
  let nodes :=
    NavNode.MyInbox :: NavNode.AllPrs ::
      (sortBy lexCmp (s.orgs.map Prod.fst)).flatMap (navOrgBlock s)
  let cursor :=
    if nodes ≠ [] ∧ s.nav_cursor ≥ nodes.length then nodes.length - 1
    else s.nav_cursor
  { s with nav_nodes := nodes, nav_cursor := cursor }

/-- The search predicate of `AppState::filtered_prs` (case-insensitive
substring match against title, author, repo short name, repo full name). -/
def prMatches (query : List Char) (pr : PullRequest) : Bool :=
  containsSub (toLowerStr pr.title) query
  || containsSub (toLowerStr pr.author) query
  || containsSub (toLowerStr pr.repo_name) query
  || containsSub (toLowerStr pr.repo_full_name) query

/-- `AppState::filtered_prs`. -/
def filtered_prs (s : AppState) (prs : List PullRequest) : List PullRequest :=
  if s.search_query = [] then prs
  else prs.filter (prMatches (toLowerStr s.search_query))

/-- `AppState::current_pr_list`. -/
def current_pr_list (s : AppState) : List PullRequest :=
  match s.content_view with
  | .Inbox => filtered_prs s s.inbox
  | .AllOpenPrs => filtered_prs s s.all_open_prs
  | .RepoPrList owner name =>
    let full_name := owner ++ '/' :: name
    filtered_prs s
      (s.all_open_prs.filter (fun pr => decide (pr.repo_full_name = full_name)))
  | .OrgOverview _ => []

/-- `AppState::selected_pr_url`. -/
def selected_pr_url (s : AppState) : Option (List Char) :=
  ((current_pr_list s)[s.content_cursor]?).map PullRequest.url

/-- `AppState::selected_nav_url`. -/
def selected_nav_url (s : AppState) : Option (List Char) :=
  match s.nav_nodes[s.nav_cursor]? with
  | some (.Repo owner name _) =>
    some ("https://github.com/".data ++ owner ++ '/' :: name)
  | some (.Org org) => some ("https://github.com/".data ++ org)
  | _ => none

/-- `AppState::new`: every configured owner pre-inserted with an empty repo
list and pre-marked expanded, `loading = true`, then an initial tree rebuild. -/
def AppState.new (viewer_login : List Char) (org_names : List (List Char)) :
    AppState :=
  rebuild_nav_tree
    { orgs := org_names.foldl (fun acc n => insertOrg acc n ⟨n, []⟩) []
      all_open_prs := []
      inbox := []
      viewer_login := viewer_login
      rate_limit := ⟨0, 0, none⟩
      last_refresh := none
      nav_nodes := []
      nav_cursor := 0
      nav_expanded := org_names.foldl setInsert []
      focused_pane := .Navigation
      content_view := .Inbox
      content_cursor := 0
      search_active := false
      search_query := []
      loading := true
      loading_orgs := []
      error_message := none
      should_quit := false }

/-! ## The reducer (`app/update.rs`)

`update` takes the wall-clock reading `now` (the one call to
`chrono::Utc::now()` in the `DataLoaded` branch) as an explicit argument and
returns the new state next to the emitted side effects. -/

def update (s : AppState) (a : Action) (now : Int) : AppState × List SideEffect :=
  match a with
  | .Quit => ({ s with should_quit := true }, [])
  | .MoveUp =>
    match s.focused_pane with
    | .Navigation =>
      (if s.nav_cursor > 0 then { s with nav_cursor := s.nav_cursor - 1 } else s, [])
    | .Content =>
      (if s.content_cursor > 0 then { s with content_cursor := s.content_cursor - 1 }
       else s, [])
  | .MoveDown =>
    match s.focused_pane with
    | .Navigation =>
      (if s.nav_cursor + 1 < s.nav_nodes.length then
        { s with nav_cursor := s.nav_cursor + 1 }
       else s, [])
    | .Content =>
      (if s.content_cursor < (current_pr_list s).length - 1 then
        { s with content_cursor := s.content_cursor + 1 }
       else s, [])
  | .Select =>
    if s.focused_pane = .Navigation then
      match s.nav_nodes[s.nav_cursor]? with
      | some (.Org org) =>
        (rebuild_nav_tree
          { s with
            nav_expanded :=
              if org ∈ s.nav_expanded then setRemove s.nav_expanded org
              else setInsert s.nav_expanded org
            content_view := .OrgOverview org
            content_cursor := 0 }, [])
      | some (.Repo owner name _) =>
        ({ s with content_view := .RepoPrList owner name, content_cursor := 0 }, [])
      | some .AllPrs =>
        ({ s with content_view := .AllOpenPrs, content_cursor := 0 }, [])
      | some .MyInbox =>
        ({ s with content_view := .Inbox, content_cursor := 0 }, [])
      | none => (s, [])
    else
      match selected_pr_url s with
      | some url => (s, [.OpenUrl url])
      | none => (s, [])
  | .Back =>
    if s.search_active then
      ({ s with search_active := false, search_query := [] }, [])
    else if s.error_message ≠ none then
      ({ s with error_message := none }, [])
    else if s.focused_pane = .Content then
      ({ s with focused_pane := .Navigation }, [])
    else (s, [])
  | .SwitchPane =>
    ({ s with focused_pane :=
        match s.focused_pane with
        | .Navigation => .Content
        | .Content => .Navigation }, [])
  | .Refresh =>
    ({ s with loading := true, error_message := none }, [.RefreshAll])
  | .OpenInBrowser =>
    match (match s.focused_pane with
           | .Content => selected_pr_url s
           | .Navigation => selected_nav_url s) with
    | some url => (s, [.OpenUrl url])
    | none => (s, [])
  | .ToggleSearch =>
    if s.search_active then
      ({ s with search_active := false, search_query := [] }, [])
    else
      ({ s with search_active := true, search_query := [] }, [])
  | .SearchInput c =>
    if s.search_active then
      ({ s with search_query := s.search_query ++ [c], content_cursor := 0 }, [])
    else (s, [])
  | .SearchBackspace =>
    if s.search_active then
      ({ s with search_query := s.search_query.dropLast, content_cursor := 0 }, [])
    else (s, [])
  | .SearchClear =>
    ({ s with search_query := [], content_cursor := 0 }, [])
  | .DataLoaded payload =>
    let s1 :=
      match payload with
      | .OrgRepos org repos rate_limit =>
        rebuild_nav_tree
          { s with
            loading_orgs := setRemove s.loading_orgs org
            rate_limit := rate_limit
            orgs := insertOrg s.orgs org ⟨org, repos⟩ }
      | .InboxPrs prs rate_limit =>
        { s with rate_limit := rate_limit, inbox := prs }
      | .AllOpenPrs prs rate_limit =>
        { s with rate_limit := rate_limit, all_open_prs := prs }
    (if s1.loading_orgs = [] then
      { s1 with loading := false, last_refresh := some now }
     else s1, [])
  | .LoadError msg =>
    ({ s with loading := false, loading_orgs := [], error_message := some msg }, [])
  | .DismissError =>
    ({ s with error_message := none }, [])
  | .Tick => (s, [])

/-- Folding a list of (action, clock reading) pairs through the reducer. -/
def applyActions (s : AppState) : List (Action × Int) → AppState
  | [] => s
  | (a, t) :: rest => applyActions (update s a t).1 rest

/-! ## Side-effect scheduler (`app/event_loop.rs`) -/

/-- The sub-intents the `RefreshAll` arm of `spawn_side_effect` dispatches,
in source order: one `FetchOrgRepos` per configured org, one
`FetchUserRepos` per configured user, then `FetchInbox` and
`FetchAllOpenPrs`. -/
def expandRefreshAll (orgs users : List (List Char)) : List SideEffect :=
  orgs.map SideEffect.FetchOrgRepos ++ users.map SideEffect.FetchUserRepos
    ++ [SideEffect.FetchInbox, SideEffect.FetchAllOpenPrs]

/-- The background tasks actually executed for one intent: `RefreshAll`
only recurses into its expansion (each member of which spawns exactly one
task); every other intent spawns one task for itself. -/
def executedTasks (orgs users : List (List Char)) : SideEffect → List SideEffect
  | .RefreshAll => expandRefreshAll orgs users
  | e => [e]

/-- The per-repo pass test of `filter_repos`: when include patterns exist
the repo must match one of them (against the `owner/name` form or the bare
name), and it must match no exclude pattern. -/
def repoPasses (include_patterns exclude_patterns : List (List Char))
    (repo : Repo) : Bool :=
  (if include_patterns ≠ [] then
    include_patterns.any
      (fun pattern => glob_match pattern repo.full_name || glob_match pattern repo.name)
   else true)
  && (if exclude_patterns ≠ [] then
    !exclude_patterns.any
      (fun pattern => glob_match pattern repo.full_name || glob_match pattern repo.name)
   else true)

/-- `filter_repos` from `event_loop.rs`. -/
def filter_repos (repos : List Repo)
    (include_patterns exclude_patterns : List (List Char)) : List Repo :=
  repos.filter (repoPasses include_patterns exclude_patterns)

/-! ## Inbox merge (`github/graphql.rs`, `fetch_inbox`) -/

/-- A pull request's identity for deduplication: (repo full name, number). -/
def prKey (pr : PullRequest) : List Char × Nat := (pr.repo_full_name, pr.number)

/-- The dedup loop of `fetch_inbox`: keep each PR whose key has not been
seen yet. -/
def dedupPrs (seen : List (List Char × Nat)) : List PullRequest → List PullRequest
  | [] => []
  | pr :: rest =>
    if prKey pr ∈ seen then dedupPrs seen rest
    else pr :: dedupPrs (prKey pr :: seen) rest

/-- The comparator of the final `inbox.sort_by`: `updated_at` descending. -/
def inboxCmp (a b : PullRequest) : Ordering := intCmp b.updated_at a.updated_at

/-- The pure merge step of `fetch_inbox`, applied to the two already
materialized query results: concatenate review-requested before assigned,
deduplicate by key (first occurrence wins), sort by `updated_at`
descending. -/
def fetch_inbox (review_prs assigned_prs : List PullRequest) : List PullRequest :=
  sortBy inboxCmp (dedupPrs [] (review_prs ++ assigned_prs))

/-! ## TTL cache store (`cache/store.rs`)

The file system under the cache directory is modelled as an association
list from file paths to file contents; a content either parses as a
`CacheEntry` or is corrupt.  `chrono::Utc::now()` is an explicit argument. -/

/-- `CacheEntry<T>` from `store.rs`. -/
structure CacheEntry (T : Type) where
  timestamp : Int
  data : T

/-- A cache file's content: a parsable serialized entry, or garbage. -/
inductive FileContent (T : Type) where
  | entry (e : CacheEntry T)
  | corrupt

/-- The cache directory: path ↦ content. -/
def CacheFs (T : Type) := List (List Char × FileContent T)

/-- `CacheStore` configuration (the directory path plays no role in the
model; the TTL in seconds does). -/
structure CacheStore where
  ttl_secs : Nat

/-- `CacheStore::path_for_key`: replace path separators by `'_'` and append
the fixed extension. -/
def path_for_key (key : List Char) : List Char :=
  (key.map (fun c => if c = '/' ∨ c = '\\' then '_' else c)) ++ ".json".data

/-- Look a path up in the modelled directory. -/
def fsRead {T : Type} (fs : CacheFs T) (path : List Char) : Option (FileContent T) :=
  match fs.find? (fun p => decide (p.1 = path)) with
  | some p => some p.2
  | none => none

/-- Overwrite (or create) a path in the modelled directory. -/
def fsWrite {T : Type} (fs : CacheFs T) (path : List Char) (c : FileContent T) :
    CacheFs T :=
  match fs with
  | [] => [(path, c)]
  | p :: rest => if p.1 = path then (path, c) :: rest else p :: fsWrite rest path c

/-- `CacheStore::get`: absent file, unparsable content, negative age and age
beyond the TTL all yield `none`; otherwise the stored value. -/
def CacheStore.get {T : Type} (store : CacheStore) (fs : CacheFs T)
    (key : List Char) (now : Int) : Option T :=
  match fsRead fs (path_for_key key) with
  | none => none
  | some .corrupt => none
  | some (.entry e) =>
    let age := now - e.timestamp
    if age < 0 ∨ age > (store.ttl_secs : Int) then none else some e.data

/-- `CacheStore::set` (the success path: directory created, entry
serialized with the current timestamp and written, overwriting any prior
value). -/
def CacheStore.set {T : Type} (_store : CacheStore) (fs : CacheFs T)
    (key : List Char) (data : T) (now : Int) : CacheFs T :=
  fsWrite fs (path_for_key key) (.entry ⟨now, data⟩)

/-! ## Invariants and derived observations -/

/-- The navigation cursor invariant of the specification:
`0 ≤ navCursor < len(navNodes)` whenever `navNodes` is non-empty. -/
abbrev navInv (s : AppState) : Prop :=
  s.nav_nodes ≠ [] → s.nav_cursor < s.nav_nodes.length

/-- The content cursor invariant of the specification: `contentCursor`
bounded by the length of the currently visible PR list whenever that list
is non-empty. -/
abbrev contentInv (s : AppState) : Prop :=
  current_pr_list s ≠ [] → s.content_cursor < (current_pr_list s).length

/-- The organization names of a navigation tree, in tree order. -/
def treeOrgNames (nodes : List NavNode) : List (List Char) :=
  nodes.filterMap (fun n => match n with | .Org x => some x | _ => none)

/-- How many pull requests with dedup key `k` a list contains. -/
def countKey (k : List Char × Nat) (l : List PullRequest) : Nat :=
  l.countP (fun pr => decide (prKey pr = k))

/-! ## Concrete sample data (used by witnesses and counterexamples) -/

/-- A pull request with the given number and update timestamp. -/
def samplePR (number : Nat) (updated : Int) : PullRequest :=
  { number := number, title := "title".data, author := "author".data
    repo_owner := "acme".data, repo_name := "widget".data, url := "url".data
    created_at := 0, updated_at := updated, is_draft := false
    additions := 0, deletions := 0, review_decision := none, labels := [] }

/-- A minimal hand-rolled state. -/
def mkBaseState : AppState :=
  { orgs := [], all_open_prs := [], inbox := [], viewer_login := "me".data
    rate_limit := ⟨0, 0, none⟩, last_refresh := none
    nav_nodes := [.MyInbox, .AllPrs], nav_cursor := 0, nav_expanded := []
    focused_pane := .Navigation, content_view := .Inbox, content_cursor := 0
    search_active := false, search_query := [], loading := false
    loading_orgs := [], error_message := none, should_quit := false }

/-- The startup state for one configured organization. -/
def sampleState : AppState := AppState.new "me".data ["acme".data]

/-- A sample repository for glob-filter witnesses. -/
def sampleRepo : Repo :=
  { name := "widget".data, owner := "acme".data, url := [],
    description := none, open_pr_count := 2, is_archived := false }

/-- A state focused on the Content pane, viewing an inbox of five pull
requests with the cursor on the last one. -/
def sC1 : AppState :=
  { mkBaseState with
    inbox := [samplePR 1 1, samplePR 2 2, samplePR 3 3, samplePR 4 4, samplePR 5 5]
    focused_pane := .Content
    content_view := .Inbox
    content_cursor := 4 }

/-- A state with an active search and a pending error message. -/
def sC9 : AppState :=
  { mkBaseState with
    search_active := true
    search_query := "q".data
    error_message := some "boom".data }

/-- Repo data for one organization: three live repos and an archived one. -/
def acmeData : OrgData :=
  { name := "acme".data
    repos :=
      [ { name := "low".data, owner := "acme".data, url := [],
          description := none, open_pr_count := 1, is_archived := false }
      , { name := "old".data, owner := "acme".data, url := [],
          description := none, open_pr_count := 99, is_archived := true }
      , { name := "high".data, owner := "acme".data, url := [],
          description := none, open_pr_count := 10, is_archived := false }
      , { name := "mid".data, owner := "acme".data, url := [],
          description := none, open_pr_count := 5, is_archived := false } ] }

/-- A state with one expanded organization holding three live repos and an
archived one. -/
def sC2 : AppState :=
  { mkBaseState with
    orgs := [("acme".data, acmeData)]
    nav_expanded := ["acme".data]
    nav_cursor := 9 }

/-! # Lemmas -/

/-! ## Comparator laws -/

theorem natCmp_ne_gt {a b : Nat} : natCmp a b ≠ .gt ↔ a ≤ b := by
  unfold natCmp
  split <;> rename_i h
  · simp; omega
  · split <;> rename_i h2
    · simp; omega
    · simp; omega

theorem natCmp_eq_eq {a b : Nat} : natCmp a b = .eq ↔ a = b := by
  unfold natCmp
  split <;> rename_i h
  · simp; omega
  · split <;> rename_i h2
    · simp; omega
    · simp; omega

theorem natCmp_eq_lt {a b : Nat} : natCmp a b = .lt ↔ a < b := by
  unfold natCmp
  split <;> rename_i h
  · simp; omega
  · split <;> rename_i h2 <;> simp <;> omega

theorem natCmp_eq_gt {a b : Nat} : natCmp a b = .gt ↔ b < a := by
  unfold natCmp
  split <;> rename_i h
  · simp; omega
  · split <;> rename_i h2 <;> simp <;> omega

instance : Batteries.TransCmp natCmp where
  symm a b := by
    rcases Nat.lt_trichotomy a b with h | h | h
    · rw [natCmp_eq_lt.2 h, natCmp_eq_gt.2 h]; rfl
    · rw [natCmp_eq_eq.2 h, natCmp_eq_eq.2 h.symm]; rfl
    · rw [natCmp_eq_gt.2 h, natCmp_eq_lt.2 h]; rfl
  le_trans h1 h2 := by
    rw [natCmp_ne_gt] at *
    omega

theorem intCmp_ne_gt {a b : Int} : intCmp a b ≠ .gt ↔ a ≤ b := by
  unfold intCmp
  split <;> rename_i h
  · simp; omega
  · split <;> rename_i h2
    · simp; omega
    · simp; omega

theorem intCmp_eq_lt {a b : Int} : intCmp a b = .lt ↔ a < b := by
  unfold intCmp
  split <;> rename_i h
  · simp; omega
  · split <;> rename_i h2 <;> simp <;> omega

theorem intCmp_eq_eq {a b : Int} : intCmp a b = .eq ↔ a = b := by
  unfold intCmp
  split <;> rename_i h
  · simp; omega
  · split <;> rename_i h2
    · simp; omega
    · simp; omega

theorem intCmp_eq_gt {a b : Int} : intCmp a b = .gt ↔ b < a := by
  unfold intCmp
  split <;> rename_i h
  · simp; omega
  · split <;> rename_i h2 <;> simp <;> omega

instance : Batteries.TransCmp intCmp where
  symm a b := by
    rcases lt_trichotomy a b with h | h | h
    · rw [intCmp_eq_lt.2 h, intCmp_eq_gt.2 h]; rfl
    · rw [intCmp_eq_eq.2 h, intCmp_eq_eq.2 h.symm]; rfl
    · rw [intCmp_eq_gt.2 h, intCmp_eq_lt.2 h]; rfl
  le_trans h1 h2 := by
    rw [intCmp_ne_gt] at *
    omega

instance : Batteries.TransCmp charCmp :=
  inferInstanceAs (Batteries.TransCmp (Ordering.byKey Char.toNat natCmp))

theorem charCmp_eq_eq {a b : Char} : charCmp a b = .eq ↔ a = b := by
  unfold charCmp
  rw [natCmp_eq_eq]
  exact ⟨fun h => Char.eq_of_val_eq (UInt32.ext h), fun h => h ▸ rfl⟩

theorem lexCmp_swap : ∀ x y : List Char, (lexCmp x y).swap = lexCmp y x
  | [], [] => rfl
  | [], _ :: _ => rfl
  | _ :: _, [] => rfl
  | a :: xs, b :: ys => by
    have hsymm := @Batteries.OrientedCmp.symm _ charCmp _ a b
    cases h : charCmp a b with
    | lt =>
      rw [h] at hsymm
      simp [lexCmp, h, ← hsymm, Ordering.swap]
    | eq =>
      rw [h] at hsymm
      simp only [lexCmp, h, ← hsymm]
      exact lexCmp_swap xs ys
    | gt =>
      rw [h] at hsymm
      simp [lexCmp, h, ← hsymm, Ordering.swap]

theorem lexCmp_le_trans : ∀ x y z : List Char,
    lexCmp x y ≠ .gt → lexCmp y z ≠ .gt → lexCmp x z ≠ .gt
  | [], _, [] => fun _ _ => by simp [lexCmp]
  | [], _, _ :: _ => fun _ _ => by simp [lexCmp]
  | _ :: _, [], _ => fun h1 _ => absurd rfl h1
  | _ :: _, _ :: _, [] => fun _ h2 => absurd rfl h2
  | a :: xs, b :: ys, c :: zs => fun h1 h2 => by
    simp only [lexCmp] at h1 h2 ⊢
    cases hab : charCmp a b with
    | gt => rw [hab] at h1; exact absurd rfl h1
    | eq =>
      rw [hab] at h1
      have hac : charCmp a c = charCmp b c := Batteries.TransCmp.cmp_congr_left hab
      cases hbc : charCmp b c with
      | gt => rw [hbc] at h2; exact absurd rfl h2
      | eq =>
        rw [hbc] at h2 hac
        rw [hac]
        exact lexCmp_le_trans xs ys zs h1 h2
      | lt =>
        rw [hbc] at hac
        rw [hac]
        simp
    | lt =>
      cases hbc : charCmp b c with
      | gt => rw [hbc] at h2; exact absurd rfl h2
      | eq =>
        have hac : charCmp a c = charCmp a b :=
          (Batteries.TransCmp.cmp_congr_right hbc : charCmp a b = charCmp a c).symm
        rw [hab] at hac
        rw [hac]
        simp
      | lt =>
        rw [Batteries.TransCmp.lt_trans hab hbc]
        simp

instance : Batteries.TransCmp lexCmp where
  symm x y := lexCmp_swap x y
  le_trans h1 h2 := lexCmp_le_trans _ _ _ h1 h2

theorem lexCmp_eq_eq : ∀ {x y : List Char}, lexCmp x y = .eq ↔ x = y
  | [], [] => by simp [lexCmp]
  | [], _ :: _ => by simp [lexCmp]
  | _ :: _, [] => by simp [lexCmp]
  | a :: xs, b :: ys => by
    simp only [lexCmp]
    cases h : charCmp a b with
    | lt =>
      have hne : a ≠ b := fun hh => nomatch (charCmp_eq_eq.2 hh).symm.trans h
      simp [hne]
    | gt =>
      have hne : a ≠ b := fun hh => nomatch (charCmp_eq_eq.2 hh).symm.trans h
      simp [hne]
    | eq =>
      have hab : a = b := charCmp_eq_eq.1 h
      subst hab
      rw [lexCmp_eq_eq]
      simp

instance : Batteries.TransCmp repoCmp :=
  inferInstanceAs (Batteries.TransCmp
    (compareLex (flip (Ordering.byKey Repo.open_pr_count natCmp))
      (Ordering.byKey Repo.name lexCmp)))

instance : Batteries.TransCmp inboxCmp :=
  inferInstanceAs (Batteries.TransCmp
    (flip (Ordering.byKey PullRequest.updated_at intCmp)))

/-! ## Sorting lemmas -/

theorem insertBy_perm {α : Type} (cmp : α → α → Ordering) (x : α) :
    ∀ l : List α, List.Perm (insertBy cmp x l) (x :: l)
  | [] => List.Perm.refl _
  | y :: ys => by
    unfold insertBy
    split
    · exact List.Perm.refl _
    · exact ((insertBy_perm cmp x ys).cons y).trans (List.Perm.swap x y ys)

theorem sortBy_perm {α : Type} (cmp : α → α → Ordering) :
    ∀ l : List α, List.Perm (sortBy cmp l) l
  | [] => List.Perm.refl _
  | x :: xs =>
    (insertBy_perm cmp x (sortBy cmp xs)).trans ((sortBy_perm cmp xs).cons x)

theorem insertBy_pairwise {α : Type} {cmp : α → α → Ordering}
    [Batteries.TransCmp cmp] (x : α) :
    ∀ {l : List α}, l.Pairwise (cmpLe cmp) → (insertBy cmp x l).Pairwise (cmpLe cmp)
  | [], _ => by simp [insertBy, cmpLe]
  | y :: ys, hl => by
    unfold insertBy
    rcases List.pairwise_cons.1 hl with ⟨hy, hys⟩
    split <;> rename_i h
    · refine List.pairwise_cons.2 ⟨?_, hl⟩
      intro z hz
      rcases List.mem_cons.1 hz with rfl | hz
      · exact h
      · exact Batteries.TransCmp.le_trans h (hy z hz)
    · refine List.pairwise_cons.2 ⟨?_, insertBy_pairwise x hys⟩
      intro z hz
      rcases List.mem_cons.1 ((insertBy_perm cmp x ys).mem_iff.1 hz) with rfl | hz
      · exact Batteries.TransCmp.gt_asymm (not_not.1 h)
      · exact hy z hz

theorem sortBy_pairwise {α : Type} {cmp : α → α → Ordering}
    [Batteries.TransCmp cmp] :
    ∀ l : List α, (sortBy cmp l).Pairwise (cmpLe cmp)
  | [] => List.Pairwise.nil
  | x :: xs => insertBy_pairwise x (sortBy_pairwise xs)

/-- Two permuted lists agree after sorting by a comparator whose `eq`
answers imply equality (used for the key order of the nav tree). -/
theorem sortBy_eq_of_perm {α : Type} {cmp : α → α → Ordering}
    [Batteries.TransCmp cmp] (heq : ∀ a b : α, cmp a b = .eq → a = b)
    {l₁ l₂ : List α} (h : List.Perm l₁ l₂) : sortBy cmp l₁ = sortBy cmp l₂ := by
  have hanti : IsAntisymm α (cmpLe cmp) := by
    constructor
    intro a b h1 h2
    cases hc : cmp a b with
    | lt =>
      have := Batteries.OrientedCmp.cmp_eq_gt.2 hc
      exact absurd this h2
    | eq => exact heq a b hc
    | gt => exact absurd hc h1
  have hperm : List.Perm (sortBy cmp l₁) (sortBy cmp l₂) :=
    ((sortBy_perm cmp l₁).trans h).trans (sortBy_perm cmp l₂).symm
  exact List.eq_of_perm_of_sorted hperm (sortBy_pairwise l₁) (sortBy_pairwise l₂)

/-! # Claim theorems -/

/-- C3: the reducer is deterministic and, in this embedding, a pure
function of the state, the action and the clock reading: two runs from
equal states with the same action and clock yield equal states and equal
intent lists. -/
theorem C3_update_deterministic (s₁ s₂ : AppState) (a : Action) (now : Int)
    (h : s₁ = s₂) : update s₁ a now = update s₂ a now := by
  rw [h]

theorem C3_witness :
    update sampleState .Tick 0 = update sampleState .Tick 0 :=
  C3_update_deterministic sampleState sampleState .Tick 0 rfl

/-- C8: expanding `RefreshAll` for two configured orgs and one configured
user yields exactly five fetch intents — one `FetchOrgRepos` per org, one
`FetchUserRepos` per user, one `FetchInbox` and one `FetchAllOpenPrs` —
and the expansion never contains `RefreshAll` itself (so `RefreshAll` is
never executed directly). -/
theorem C8_refresh_all_expansion :
    (∀ o₁ o₂ u : List Char,
      executedTasks [o₁, o₂] [u] .RefreshAll =
        [.FetchOrgRepos o₁, .FetchOrgRepos o₂, .FetchUserRepos u,
          .FetchInbox, .FetchAllOpenPrs] ∧
      (executedTasks [o₁, o₂] [u] .RefreshAll).length = 5) ∧
    (∀ orgs users : List (List Char),
      (expandRefreshAll orgs users).filter
        (fun e => decide (e = SideEffect.RefreshAll)) = []) := by
  constructor
  · intro o₁ o₂ u
    constructor <;> rfl
  · intro orgs users
    simp only [expandRefreshAll, List.filter_append, List.append_eq_nil]
    refine ⟨⟨List.filter_eq_nil_iff.2 ?_, List.filter_eq_nil_iff.2 ?_⟩,
      List.filter_eq_nil_iff.2 ?_⟩
    · rintro e he
      rcases List.mem_map.1 he with ⟨x, -, rfl⟩
      simp
    · rintro e he
      rcases List.mem_map.1 he with ⟨x, -, rfl⟩
      simp
    · rintro e he
      rcases List.mem_cons.1 he with rfl | he
      · simp
      · rcases List.mem_cons.1 he with rfl | he
        · simp
        · simp at he

/-- C9 counterexample: from a state with an active search and a pending
error message, `Back` closes the search but leaves the error message in
place — refuting the claimed priority of clearing `errorMessage` first. -/
theorem C9_counterexample :
    sC9.error_message = some "boom".data ∧ sC9.search_active = true ∧
    (update sC9 .Back 0).1.error_message = some "boom".data ∧
    (update sC9 .Back 0).1.search_active = false := by
  decide

/-- C9 (amended): `Back` applies exactly one outcome per event, in the
priority order of the code: an active search is closed first (query
cleared, error message and focus untouched); otherwise a set error message
is cleared; otherwise focus returns to Navigation; and `Back` emits no
intents. -/
theorem C9_back_priority :
    (∀ (s : AppState) (now : Int), s.search_active = true →
      (update s .Back now).1.search_active = false ∧
      (update s .Back now).1.search_query = [] ∧
      (update s .Back now).1.error_message = s.error_message ∧
      (update s .Back now).1.focused_pane = s.focused_pane) ∧
    (∀ (s : AppState) (now : Int), s.search_active = false →
      s.error_message ≠ none →
      (update s .Back now).1.error_message = none ∧
      (update s .Back now).1.search_active = false ∧
      (update s .Back now).1.focused_pane = s.focused_pane) ∧
    (∀ (s : AppState) (now : Int), s.search_active = false →
      s.error_message = none →
      (update s .Back now).1.focused_pane = .Navigation ∧
      (update s .Back now).1.error_message = none) ∧
    (∀ (s : AppState) (now : Int), (update s .Back now).2 = []) := by
  refine ⟨?_, ?_, ?_, ?_⟩
  · intro s now h
    simp [update, h]
  · intro s now h he
    simp [update, h, he]
  · intro s now h he
    cases hp : s.focused_pane with
    | Content => simp [update, h, he, hp]
    | Navigation => simp [update, h, he, hp]
  · intro s now
    by_cases h : s.search_active <;> by_cases he : s.error_message = none <;>
      by_cases hp : s.focused_pane = .Content <;> simp [update, h, he, hp]

/-! ### Projections of `rebuild_nav_tree` (it only writes the nav fields) -/

@[simp] theorem rebuild_nav_tree_orgs (s : AppState) :
    (rebuild_nav_tree s).orgs = s.orgs := rfl

@[simp] theorem rebuild_nav_tree_inbox (s : AppState) :
    (rebuild_nav_tree s).inbox = s.inbox := rfl

@[simp] theorem rebuild_nav_tree_all_open_prs (s : AppState) :
    (rebuild_nav_tree s).all_open_prs = s.all_open_prs := rfl

@[simp] theorem rebuild_nav_tree_loading_orgs (s : AppState) :
    (rebuild_nav_tree s).loading_orgs = s.loading_orgs := rfl

@[simp] theorem rebuild_nav_tree_loading (s : AppState) :
    (rebuild_nav_tree s).loading = s.loading := rfl

@[simp] theorem rebuild_nav_tree_last_refresh (s : AppState) :
    (rebuild_nav_tree s).last_refresh = s.last_refresh := rfl

@[simp] theorem rebuild_nav_tree_error_message (s : AppState) :
    (rebuild_nav_tree s).error_message = s.error_message := rfl

@[simp] theorem rebuild_nav_tree_content_view (s : AppState) :
    (rebuild_nav_tree s).content_view = s.content_view := rfl

@[simp] theorem rebuild_nav_tree_content_cursor (s : AppState) :
    (rebuild_nav_tree s).content_cursor = s.content_cursor := rfl

@[simp] theorem rebuild_nav_tree_search_active (s : AppState) :
    (rebuild_nav_tree s).search_active = s.search_active := rfl

@[simp] theorem rebuild_nav_tree_search_query (s : AppState) :
    (rebuild_nav_tree s).search_query = s.search_query := rfl

@[simp] theorem rebuild_nav_tree_focused_pane (s : AppState) :
    (rebuild_nav_tree s).focused_pane = s.focused_pane := rfl

@[simp] theorem rebuild_nav_tree_nav_expanded (s : AppState) :
    (rebuild_nav_tree s).nav_expanded = s.nav_expanded := rfl

theorem update_loading_orgs_subset (s : AppState) (a : Action) (now : Int) :
    ∀ x, x ∈ (update s a now).1.loading_orgs → x ∈ s.loading_orgs := by
  intro x hx
  cases a <;> simp only [update] at hx <;>
    (repeat' split at hx) <;>
    first
      | exact hx
      | exact (List.mem_filter.1 hx).1
      | simp at hx

theorem applyActions_loading_orgs_nil (acts : List (Action × Int)) :
    ∀ s : AppState, s.loading_orgs = [] →
      (applyActions s acts).loading_orgs = [] := by
  induction acts with
  | nil => intro s h; exact h
  | cons p rest ih =>
    intro s h
    refine ih _ (List.eq_nil_iff_forall_not_mem.2 fun x hx => ?_)
    have hmem := update_loading_orgs_subset s p.1 p.2 x hx
    rw [h] at hmem
    exact absurd hmem (List.not_mem_nil x)

/-- C10: the reducer never inserts into `loadingOrgs` — every transition
leaves it a subset of its prior value; it is empty at startup and hence in
every reachable state; consequently every `DataLoaded` event immediately
clears `loading` and stamps `lastRefresh` with the clock reading. -/
theorem C10_loading_orgs_never_grows :
    (∀ (s : AppState) (a : Action) (now : Int) (x : List Char),
      x ∈ (update s a now).1.loading_orgs → x ∈ s.loading_orgs) ∧
    (∀ (login : List Char) (names : List (List Char)),
      (AppState.new login names).loading_orgs = []) ∧
    (∀ (login : List Char) (names : List (List Char)) (acts : List (Action × Int)),
      (applyActions (AppState.new login names) acts).loading_orgs = []) ∧
    (∀ (s : AppState) (p : DataPayload) (now : Int), s.loading_orgs = [] →
      (update s (.DataLoaded p) now).1.loading = false ∧
      (update s (.DataLoaded p) now).1.last_refresh = some now) := by
  refine ⟨update_loading_orgs_subset, fun _ _ => rfl, ?_, ?_⟩
  · intro login names acts
    exact applyActions_loading_orgs_nil acts _ rfl
  · intro s p now h
    cases p <;> simp [update, setRemove, h]

theorem C10_witness :
    (sampleState.loading_orgs = []) ∧
    (update sampleState (.DataLoaded (.InboxPrs [] ⟨0, 0, none⟩)) 7).1.loading = false ∧
    (update sampleState (.DataLoaded (.InboxPrs [] ⟨0, 0, none⟩)) 7).1.last_refresh = some 7 :=
  ⟨C10_loading_orgs_never_grows.2.1 "me".data ["acme".data],
   (C10_loading_orgs_never_grows.2.2.2 sampleState (.InboxPrs [] ⟨0, 0, none⟩) 7 (by decide)).1,
   (C10_loading_orgs_never_grows.2.2.2 sampleState (.InboxPrs [] ⟨0, 0, none⟩) 7 (by decide)).2⟩

theorem fsRead_fsWrite_self {T : Type} (p : List Char) (c : FileContent T) :
    ∀ fs : CacheFs T, fsRead (fsWrite fs p c) p = some c := by
  intro fs
  induction fs with
  | nil => simp [fsWrite, fsRead]
  | cons q rest ih =>
    by_cases h : q.1 = p
    · simp [fsWrite, fsRead, h]
    · simp only [fsWrite, if_neg h]
      simpa [fsRead, h] using ih

/-- C4: a `set` followed by a `get` of the same key returns exactly the
stored value as long as the entry's age (read time minus write time) is
non-negative and at most the configured TTL in seconds, and returns
absent once the age exceeds the TTL. -/
theorem C4_cache_roundtrip {T : Type} (store : CacheStore) (fs : CacheFs T)
    (key : List Char) (v : T) (t₀ t₁ : Int) :
    (0 ≤ t₁ - t₀ → t₁ - t₀ ≤ (store.ttl_secs : Int) →
      store.get (store.set fs key v t₀) key t₁ = some v) ∧
    (t₁ - t₀ > (store.ttl_secs : Int) →
      store.get (store.set fs key v t₀) key t₁ = none) := by
  constructor
  · intro h1 h2
    unfold CacheStore.get CacheStore.set
    rw [fsRead_fsWrite_self]
    simp only
    rw [if_neg]
    omega
  · intro h1
    unfold CacheStore.get CacheStore.set
    rw [fsRead_fsWrite_self]
    simp only
    rw [if_pos]
    omega

theorem C4_witness :
    (0 : Int) ≤ 1 - 0 ∧ (1 - 0 : Int) ≤ ((5 : Nat) : Int) ∧
    (CacheStore.mk 5).get ((CacheStore.mk 5).set ([] : CacheFs Nat) "k".data 7 0) "k".data 1 = some 7 ∧
    ((9 : Int) - 0 > ((5 : Nat) : Int)) ∧
    (CacheStore.mk 5).get ((CacheStore.mk 5).set ([] : CacheFs Nat) "k".data 7 0) "k".data 9 = none :=
  ⟨by norm_num, by norm_num,
   (C4_cache_roundtrip (CacheStore.mk 5) [] "k".data 7 0 1).1 (by norm_num) (by norm_num),
   by norm_num,
   (C4_cache_roundtrip (CacheStore.mk 5) [] "k".data 7 0 9).2 (by norm_num)⟩

/-- C5: `CacheStore::get` is total and never surfaces an error: it returns
`none` when the backing file is missing, when the content fails to parse,
and when the entry's age exceeds the configured TTL. -/
theorem C5_cache_get_total {T : Type} (store : CacheStore) (fs : CacheFs T)
    (key : List Char) (now : Int) :
    (fsRead fs (path_for_key key) = none → store.get fs key now = none) ∧
    (fsRead fs (path_for_key key) = some .corrupt → store.get fs key now = none) ∧
    (∀ e : CacheEntry T, fsRead fs (path_for_key key) = some (.entry e) →
      now - e.timestamp > (store.ttl_secs : Int) → store.get fs key now = none) := by
  refine ⟨?_, ?_, ?_⟩
  · intro h
    unfold CacheStore.get
    rw [h]
  · intro h
    unfold CacheStore.get
    rw [h]
  · intro e h hage
    unfold CacheStore.get
    rw [h]
    simp only
    rw [if_pos]
    omega

theorem C5_witness :
    (CacheStore.mk 5).get ([] : CacheFs Nat) "k".data 0 = none ∧
    (CacheStore.mk 5).get
      ([(path_for_key "k".data, FileContent.corrupt)] : CacheFs Nat) "k".data 0 = none ∧
    (CacheStore.mk 5).get
      ([(path_for_key "k".data, FileContent.entry ⟨0, (7 : Nat)⟩)] : CacheFs Nat) "k".data 9 = none :=
  ⟨(C5_cache_get_total (CacheStore.mk 5) [] "k".data 0).1 rfl,
   (C5_cache_get_total (CacheStore.mk 5)
       ([(path_for_key "k".data, FileContent.corrupt)] : CacheFs Nat) "k".data 0).2.1
     (by simp [fsRead]),
   (C5_cache_get_total (CacheStore.mk 5)
       [(path_for_key "k".data, FileContent.entry ⟨0, (7 : Nat)⟩)] "k".data 9).2.2
     ⟨0, 7⟩ (by simp [fsRead]) (by norm_num)⟩

theorem C9_witness :
    (update sC9 .Back 0).1.search_active = false ∧
    (update sC9 .Back 0).1.error_message = sC9.error_message ∧
    (update mkBaseState .Back 0).1.focused_pane = .Navigation :=
  ⟨(C9_back_priority.1 sC9 0 (by decide)).1,
   (C9_back_priority.1 sC9 0 (by decide)).2.2.1,
   (C9_back_priority.2.2.1 mkBaseState 0 (by decide) (by decide)).1⟩

/-! ### Inbox dedup lemmas -/

theorem dedup_countKey_zero (k : List Char × Nat) (l : List PullRequest) :
    ∀ seen, k ∈ seen → countKey k (dedupPrs seen l) = 0 := by
  induction l with
  | nil => intro seen _; simp [dedupPrs, countKey]
  | cons pr rest ih =>
    intro seen hk
    unfold dedupPrs
    split <;> rename_i h
    · exact ih seen hk
    · have hne : ¬(prKey pr = k) := fun hh => h (hh ▸ hk)
      have ih' := ih (prKey pr :: seen) (List.mem_cons_of_mem _ hk)
      simp only [countKey, List.countP_cons] at ih' ⊢
      rw [ih']
      simp [hne]

theorem dedup_countKey_le_one (k : List Char × Nat) (l : List PullRequest) :
    ∀ seen, countKey k (dedupPrs seen l) ≤ 1 := by
  induction l with
  | nil => intro; simp [dedupPrs, countKey]
  | cons pr rest ih =>
    intro seen
    unfold dedupPrs
    split <;> rename_i h
    · exact ih seen
    · by_cases hk : prKey pr = k
      · have hz := dedup_countKey_zero k rest (prKey pr :: seen)
          (hk ▸ List.mem_cons_self _ _)
        simp only [countKey, List.countP_cons] at hz ⊢
        rw [hz]
        simp [hk]
      · have ih' := ih (prKey pr :: seen)
        simp only [countKey, List.countP_cons] at ih' ⊢
        simpa [hk] using ih'

theorem dedup_mem_iff (pr : PullRequest) (l : List PullRequest) :
    ∀ seen, pr ∈ dedupPrs seen l ↔
      (prKey pr ∉ seen ∧
        l.find? (fun q => decide (prKey q = prKey pr)) = some pr) := by
  induction l with
  | nil => intro seen; simp [dedupPrs]
  | cons q rest ih =>
    intro seen
    unfold dedupPrs
    split <;> rename_i h
    · rw [ih seen]
      by_cases hk : prKey q = prKey pr
      · rw [List.find?_cons_of_pos _ (by simpa using hk)]
        constructor
        · rintro ⟨hns, _⟩
          exact absurd (hk ▸ h) hns
        · rintro ⟨hns, _⟩
          exact absurd (hk ▸ h) hns
      · rw [List.find?_cons_of_neg _ (by simpa using hk)]
    · by_cases hk : prKey q = prKey pr
      · rw [List.find?_cons_of_pos _ (by simpa using hk)]
        simp only [List.mem_cons]
        rw [ih (prKey q :: seen)]
        constructor
        · rintro (rfl | ⟨hns, _⟩)
          · exact ⟨fun hs => h (hk ▸ hs), rfl⟩
          · exact absurd (List.mem_cons_self _ _) (hk ▸ hns)
        · rintro ⟨-, hq⟩
          exact Or.inl (Option.some.inj hq).symm
      · rw [List.find?_cons_of_neg _ (by simpa using hk)]
        simp only [List.mem_cons]
        rw [ih (prKey q :: seen)]
        constructor
        · rintro (rfl | ⟨hns, hfind⟩)
          · exact absurd rfl hk
          · refine ⟨fun hs => hns (List.mem_cons_of_mem _ hs), hfind⟩
        · rintro ⟨hns, hfind⟩
          refine Or.inr ⟨?_, hfind⟩
          intro hs
          rcases List.mem_cons.1 hs with he | hs'
          · exact hk he.symm
          · exact hns hs'

theorem dedup_countKey_pos (k : List Char × Nat) (l : List PullRequest)
    (hex : ∃ pr ∈ l, prKey pr = k) : 1 ≤ countKey k (dedupPrs [] l) := by
  have hsome : (l.find? (fun q => decide (prKey q = k))).isSome := by
    rw [List.find?_isSome]
    rcases hex with ⟨pr, hmem, hkey⟩
    exact ⟨pr, hmem, by simpa using hkey⟩
  rcases Option.isSome_iff_exists.1 hsome with ⟨q0, hq0⟩
  have hkey : prKey q0 = k := by simpa using List.find?_some hq0
  have hmem : q0 ∈ dedupPrs [] l := by
    rw [dedup_mem_iff]
    refine ⟨List.not_mem_nil _, ?_⟩
    rw [hkey]
    exact hq0
  have : 0 < countKey k (dedupPrs [] l) := by
    rw [countKey, List.countP_pos_iff]
    exact ⟨q0, hmem, by simpa using hkey⟩
  omega

/-- C7: the merged inbox — review-requested results concatenated before
assigned results, deduplicated by (repo full name, number) with the first
occurrence winning — contains each key at most once, contains a PR present
in both result sets exactly once, keeps exactly the first occurrence of
each key of the concatenation, and is sorted by `updated_at` descending. -/
theorem C7_fetch_inbox (review_prs assigned_prs : List PullRequest) :
    (∀ k, countKey k (fetch_inbox review_prs assigned_prs) ≤ 1) ∧
    (∀ k, (∃ pr ∈ review_prs, prKey pr = k) → (∃ pr ∈ assigned_prs, prKey pr = k) →
      countKey k (fetch_inbox review_prs assigned_prs) = 1) ∧
    (∀ pr, pr ∈ fetch_inbox review_prs assigned_prs ↔
      (review_prs ++ assigned_prs).find?
        (fun q => decide (prKey q = prKey pr)) = some pr) ∧
    (fetch_inbox review_prs assigned_prs).Pairwise
      (fun a b => b.updated_at ≤ a.updated_at) := by
  have hperm := sortBy_perm inboxCmp (dedupPrs [] (review_prs ++ assigned_prs))
  refine ⟨?_, ?_, ?_, ?_⟩
  · intro k
    rw [countKey, fetch_inbox, hperm.countP_eq]
    exact dedup_countKey_le_one k _ []
  · intro k hrev _
    have hle : countKey k (fetch_inbox review_prs assigned_prs) ≤ 1 := by
      rw [countKey, fetch_inbox, hperm.countP_eq]
      exact dedup_countKey_le_one k _ []
    have hge : 1 ≤ countKey k (fetch_inbox review_prs assigned_prs) := by
      rw [countKey, fetch_inbox, hperm.countP_eq]
      refine dedup_countKey_pos k _ ?_
      rcases hrev with ⟨pr, hmem, hkey⟩
      exact ⟨pr, List.mem_append_left _ hmem, hkey⟩
    omega
  · intro pr
    rw [fetch_inbox, hperm.mem_iff, dedup_mem_iff]
    simp
  · refine List.Pairwise.imp ?_ (@sortBy_pairwise _ inboxCmp _ _)
    intro a b hab
    have : intCmp b.updated_at a.updated_at ≠ .gt := hab
    rwa [intCmp_ne_gt] at this

theorem C7_witness :
    (countKey ("o/r".data, 1) (fetch_inbox [samplePR 1 5] [samplePR 1 5]) ≤ 1) ∧
    (countKey (prKey (samplePR 1 5)) (fetch_inbox [samplePR 1 5] [samplePR 1 5]) = 1) ∧
    (fetch_inbox [samplePR 1 5] [samplePR 1 5]).Pairwise
      (fun a b => b.updated_at ≤ a.updated_at) :=
  ⟨(C7_fetch_inbox [samplePR 1 5] [samplePR 1 5]).1 ("o/r".data, 1),
   (C7_fetch_inbox [samplePR 1 5] [samplePR 1 5]).2.1 (prKey (samplePR 1 5))
     ⟨samplePR 1 5, by simp, rfl⟩ ⟨samplePR 1 5, by simp, rfl⟩,
   (C7_fetch_inbox [samplePR 1 5] [samplePR 1 5]).2.2.2⟩

/-! ### Association list and nav tree lemmas -/

theorem lookupOrg_eq_none_iff (orgs : List (List Char × OrgData)) (k : List Char) :
    lookupOrg orgs k = none ↔ k ∉ orgs.map Prod.fst := by
  induction orgs with
  | nil => simp [lookupOrg]
  | cons p rest ih =>
    by_cases h : p.1 = k
    · rw [lookupOrg, List.find?_cons_of_pos _ (by simpa using h)]
      constructor
      · intro hn
        exact Option.noConfusion hn
      · intro hn
        exact absurd (h ▸ List.mem_map_of_mem Prod.fst (List.mem_cons_self p rest)) hn
    · rw [lookupOrg] at ih ⊢
      rw [List.find?_cons_of_neg _ (by simpa using h)]
      simp only [List.map_cons, List.mem_cons]
      rw [ih]
      constructor
      · intro hn
        rintro (he | hm)
        · exact h he.symm
        · exact hn hm
      · intro hn hm
        exact hn (Or.inr hm)

theorem lookupOrg_eq_some_iff (orgs : List (List Char × OrgData))
    (hnd : (orgs.map Prod.fst).Nodup) (k : List Char) (v : OrgData) :
    lookupOrg orgs k = some v ↔ (k, v) ∈ orgs := by
  induction orgs with
  | nil => simp [lookupOrg]
  | cons p rest ih =>
    rw [List.map_cons, List.nodup_cons] at hnd
    by_cases h : p.1 = k
    · rw [lookupOrg, List.find?_cons_of_pos _ (by simpa using h)]
      simp only [Option.some.injEq, List.mem_cons]
      constructor
      · rintro rfl
        left
        rw [← h]
      · rintro (he | hm)
        · rw [← he]
        · exact absurd (h ▸ List.mem_map_of_mem Prod.fst hm) hnd.1
    · rw [lookupOrg, List.find?_cons_of_neg _ (by simpa using h)]
      rw [lookupOrg] at ih
      rw [ih hnd.2]
      simp only [List.mem_cons]
      constructor
      · exact Or.inr
      · rintro (he | hm)
        · exact absurd (congrArg Prod.fst he).symm h
        · exact hm

theorem lookupOrg_perm {orgs₁ orgs₂ : List (List Char × OrgData)}
    (hp : List.Perm orgs₁ orgs₂) (hnd : (orgs₂.map Prod.fst).Nodup)
    (k : List Char) : lookupOrg orgs₁ k = lookupOrg orgs₂ k := by
  have hnd₁ : (orgs₁.map Prod.fst).Nodup := ((hp.map Prod.fst).nodup_iff).2 hnd
  cases h2 : lookupOrg orgs₂ k with
  | some v =>
    rw [lookupOrg_eq_some_iff orgs₁ hnd₁]
    exact hp.mem_iff.2 ((lookupOrg_eq_some_iff orgs₂ hnd k v).1 h2)
  | none =>
    rw [lookupOrg_eq_none_iff] at h2 ⊢
    intro hm
    exact h2 ((hp.map Prod.fst).mem_iff.1 hm)

theorem treeOrgNames_navRepoNodes (data : OrgData) :
    treeOrgNames (navRepoNodes data) = [] := by
  rw [treeOrgNames, navRepoNodes, List.filterMap_map]
  exact List.filterMap_eq_nil_iff.2 (fun r _ => rfl)

theorem treeOrgNames_navOrgBlock (s : AppState) (n : List Char) :
    treeOrgNames (navOrgBlock s n) = [n] := by
  rw [navOrgBlock, treeOrgNames, List.filterMap_cons]
  simp only
  rw [← treeOrgNames]
  split <;> rename_i h
  · split <;> rename_i data hdata
    · rw [treeOrgNames_navRepoNodes]
    · rfl
  · rfl

theorem treeOrgNames_flatMap (s : AppState) (names : List (List Char)) :
    treeOrgNames (names.flatMap (navOrgBlock s)) = names := by
  induction names with
  | nil => rfl
  | cons n rest ih =>
    rw [List.flatMap_cons, treeOrgNames, List.filterMap_append, ← treeOrgNames,
      ← treeOrgNames, treeOrgNames_navOrgBlock, ih]
    rfl

theorem rebuild_nav_tree_nodes (s : AppState) :
    (rebuild_nav_tree s).nav_nodes =
      NavNode.MyInbox :: NavNode.AllPrs ::
        (sortBy lexCmp (s.orgs.map Prod.fst)).flatMap (navOrgBlock s) := rfl

theorem rebuild_nav_tree_cursor_lt (s : AppState) :
    (rebuild_nav_tree s).nav_cursor < (rebuild_nav_tree s).nav_nodes.length := by
  show (if _ ∧ s.nav_cursor ≥ _ then _ else s.nav_cursor) < _
  rw [rebuild_nav_tree_nodes]
  split <;> rename_i h
  · simp only [List.length_cons]
    omega
  · rw [Classical.not_and_iff_or_not_not] at h
    rcases h with h | h
    · exact absurd (by simp) h
    · simp only [List.length_cons] at h ⊢
      omega

theorem repoCmp_le_iff {a b : Repo} :
    cmpLe repoCmp a b ↔
      (b.open_pr_count < a.open_pr_count ∨
        (b.open_pr_count = a.open_pr_count ∧ lexCmp a.name b.name ≠ .gt)) := by
  unfold cmpLe repoCmp
  rcases Nat.lt_trichotomy b.open_pr_count a.open_pr_count with h | h | h
  · rw [natCmp_eq_lt.2 h]
    simp [Ordering.then, h]
  · rw [natCmp_eq_eq.2 h]
    simp [Ordering.then, h]
  · rw [natCmp_eq_gt.2 h]
    simp only [Ordering.then]
    constructor
    · intro hh
      exact absurd rfl hh
    · rintro (hh | ⟨hh, -⟩) <;> omega

/-- C2: `rebuild_nav_tree` is a deterministic function of the org map and
the expansion set — invariant under reordering of the (nodup-keyed) org
map — whose output starts with the `MyInbox` node then the `AllPrs` node,
followed by org names in lexicographic order; directly after each expanded
org come its non-archived repos sorted by open-PR count descending, ties
broken by name ascending; archived repos never appear; and afterwards the
cursor is clamped below the new length. -/
theorem C2_rebuild_nav_tree (s : AppState) :
    ((rebuild_nav_tree s).nav_nodes.take 2 = [NavNode.MyInbox, NavNode.AllPrs]) ∧
    ((rebuild_nav_tree s).nav_nodes =
      NavNode.MyInbox :: NavNode.AllPrs ::
        (sortBy lexCmp (s.orgs.map Prod.fst)).flatMap (navOrgBlock s)) ∧
    (treeOrgNames (rebuild_nav_tree s).nav_nodes =
      sortBy lexCmp (s.orgs.map Prod.fst)) ∧
    ((treeOrgNames (rebuild_nav_tree s).nav_nodes).Pairwise (cmpLe lexCmp)) ∧
    (∀ n data, n ∈ s.nav_expanded → lookupOrg s.orgs n = some data →
      navOrgBlock s n =
        NavNode.Org n ::
          (sortBy repoCmp (data.repos.filter (fun r => !r.is_archived))).map
            (fun r => NavNode.Repo r.owner r.name r.open_pr_count) ∧
      (sortBy repoCmp (data.repos.filter (fun r => !r.is_archived))).Pairwise
        (fun a b => b.open_pr_count < a.open_pr_count ∨
          (b.open_pr_count = a.open_pr_count ∧ lexCmp a.name b.name ≠ .gt)) ∧
      List.Perm (sortBy repoCmp (data.repos.filter (fun r => !r.is_archived)))
        (data.repos.filter (fun r => !r.is_archived))) ∧
    (∀ owner name k, NavNode.Repo owner name k ∈ (rebuild_nav_tree s).nav_nodes →
      ∃ n data r, lookupOrg s.orgs n = some data ∧ n ∈ s.nav_expanded ∧
        r ∈ data.repos ∧ r.is_archived = false ∧
        r.owner = owner ∧ r.name = name ∧ r.open_pr_count = k) ∧
    ((rebuild_nav_tree s).nav_cursor < (rebuild_nav_tree s).nav_nodes.length) ∧
    (∀ s' : AppState, List.Perm s'.orgs s.orgs → (s.orgs.map Prod.fst).Nodup →
      s'.nav_expanded = s.nav_expanded →
      (rebuild_nav_tree s').nav_nodes = (rebuild_nav_tree s).nav_nodes) := by
  have h3 : treeOrgNames (rebuild_nav_tree s).nav_nodes =
      sortBy lexCmp (s.orgs.map Prod.fst) := by
    rw [rebuild_nav_tree_nodes]
    exact treeOrgNames_flatMap s _
  refine ⟨?_, rebuild_nav_tree_nodes s, h3, ?_, ?_, ?_, rebuild_nav_tree_cursor_lt s, ?_⟩
  · rw [rebuild_nav_tree_nodes]
    rfl
  · rw [h3]
    exact sortBy_pairwise _
  · intro n data hn hd
    refine ⟨?_, ?_, sortBy_perm _ _⟩
    · simp only [navOrgBlock, if_pos hn, hd, navRepoNodes]
    · exact (sortBy_pairwise _).imp (fun h => repoCmp_le_iff.1 h)
  · intro owner name k hmem
    rw [rebuild_nav_tree_nodes] at hmem
    rcases List.mem_cons.1 hmem with hc | hmem
    · exact absurd hc (by simp)
    rcases List.mem_cons.1 hmem with hc | hmem
    · exact absurd hc (by simp)
    rcases List.mem_flatMap.1 hmem with ⟨n, -, hblock⟩
    rw [navOrgBlock] at hblock
    rcases List.mem_cons.1 hblock with hc | hblock
    · exact absurd hc (by simp)
    by_cases hexp : n ∈ s.nav_expanded
    · rw [if_pos hexp] at hblock
      cases hl : lookupOrg s.orgs n with
      | none => rw [hl] at hblock; exact absurd hblock (List.not_mem_nil _)
      | some data =>
        rw [hl] at hblock
        unfold navRepoNodes at hblock
        rcases List.mem_map.1 hblock with ⟨r, hr, heq⟩
        have hr' := (sortBy_perm repoCmp _).mem_iff.1 hr
        rcases List.mem_filter.1 hr' with ⟨hrin, harch⟩
        refine ⟨n, data, r, hl, hexp, hrin, by simpa using harch, ?_, ?_, ?_⟩ <;>
          cases heq <;> rfl
    · rw [if_neg hexp] at hblock
      exact absurd hblock (List.not_mem_nil _)
  · intro s' hperm hnd hexp
    rw [rebuild_nav_tree_nodes, rebuild_nav_tree_nodes]
    have hkeys : sortBy lexCmp (s'.orgs.map Prod.fst) =
        sortBy lexCmp (s.orgs.map Prod.fst) :=
      sortBy_eq_of_perm (fun a b h => lexCmp_eq_eq.1 h) (hperm.map Prod.fst)
    have hblock : navOrgBlock s' = navOrgBlock s := by
      funext n
      rw [navOrgBlock, navOrgBlock, hexp, lookupOrg_perm hperm hnd n]
    rw [hkeys, hblock]

theorem C2_witness :
    ((rebuild_nav_tree sC2).nav_cursor < (rebuild_nav_tree sC2).nav_nodes.length) ∧
    (navOrgBlock sC2 "acme".data =
      NavNode.Org "acme".data ::
        (sortBy repoCmp (acmeData.repos.filter (fun r => !r.is_archived))).map
          (fun r => NavNode.Repo r.owner r.name r.open_pr_count)) ∧
    (∃ n data r, lookupOrg sC2.orgs n = some data ∧ n ∈ sC2.nav_expanded ∧
      r ∈ data.repos ∧ r.is_archived = false ∧
      r.owner = "acme".data ∧ r.name = "high".data ∧ r.open_pr_count = 10) :=
  ⟨(C2_rebuild_nav_tree sC2).2.2.2.2.2.2.1,
   ((C2_rebuild_nav_tree sC2).2.2.2.2.1 "acme".data acmeData (by decide) (by decide)).1,
   (C2_rebuild_nav_tree sC2).2.2.2.2.2.1 "acme".data "high".data 10 (by decide)⟩

/-! ### Glob lemmas -/

theorem consHead_ne_nil (c : Char) (l : List (List Char)) : consHead c l ≠ [] := by
  cases l <;> simp [consHead]

theorem splitStar_ne_nil : ∀ p : List Char, splitStar p ≠ []
  | [] => by simp [splitStar]
  | c :: rest => by
    rw [splitStar]
    split
    · simp
    · exact consHead_ne_nil c (splitStar rest)

theorem consHead_length (c : Char) {l : List (List Char)} (h : l ≠ []) :
    (consHead c l).length = l.length := by
  cases l with
  | nil => exact absurd rfl h
  | cons p ps => simp [consHead]

theorem splitStar_length_one_iff : ∀ p : List Char,
    (splitStar p).length = 1 ↔ '*' ∉ p := by
  intro p
  induction p with
  | nil => simp [splitStar]
  | cons c rest ih =>
    rw [splitStar]
    by_cases hc : c = '*'
    · rw [if_pos hc]
      subst hc
      have := splitStar_ne_nil rest
      constructor
      · intro hlen
        simp only [List.length_cons, Nat.add_eq_right] at hlen
        exact absurd (List.length_eq_zero.1 hlen) this
      · intro hm
        exact absurd (List.mem_cons_self _ _) hm
    · rw [if_neg hc, consHead_length c (splitStar_ne_nil rest), ih]
      constructor
      · intro hn hm
        rcases List.mem_cons.1 hm with he | hm
        · exact hc he.symm
        · exact hn hm
      · intro hn hm
        exact hn (List.mem_cons_of_mem _ hm)

theorem splitStar_head_eq_nil_iff {c : Char} {rest : List Char} {q : List Char}
    {qs : List (List Char)} (h : splitStar (c :: rest) = q :: qs) :
    q = [] ↔ c = '*' := by
  rw [splitStar] at h
  by_cases hc : c = '*'
  · rw [if_pos hc] at h
    injection h with h1 _
    subst h1
    simp [hc]
  · rw [if_neg hc] at h
    cases hs : splitStar rest with
    | nil => exact absurd hs (splitStar_ne_nil rest)
    | cons p ps =>
      rw [hs, consHead] at h
      injection h with h1 _
      subst h1
      simp [hc]

theorem findSub_of_startsWith {s t : List Char} (h : s.isPrefixOf t = true) :
    findSub s t = some 0 := by
  cases t with
  | nil => rw [findSub, if_pos h]
  | cons c t' => rw [findSub, if_pos h]

theorem findSub_bound {s : List Char} :
    ∀ {t : List Char} {i : Nat}, findSub s t = some i → i + s.length ≤ t.length := by
  intro t
  induction t with
  | nil =>
    intro i h
    rw [findSub] at h
    split at h <;> rename_i hp
    · cases h
      have := List.IsPrefix.length_le (List.isPrefixOf_iff_prefix.1 hp)
      simpa using this
    · cases h
  | cons c t' ih =>
    intro i h
    rw [findSub] at h
    split at h <;> rename_i hp
    · cases h
      have := List.IsPrefix.length_le (List.isPrefixOf_iff_prefix.1 hp)
      simpa using this
    · cases hf : findSub s t' with
      | none => rw [hf] at h; cases h
      | some j =>
        rw [hf] at h
        cases h
        have := ih hf
        simp only [List.length_cons]
        omega

theorem dropToAfter_eq (s : List Char) :
    ∀ t : List Char, dropToAfter s t =
      (findSub s t).map (fun i => t.drop (i + s.length)) := by
  intro t
  induction t with
  | nil =>
    rw [dropToAfter, findSub]
    split <;> simp
  | cons c t' ih =>
    rw [dropToAfter, findSub]
    split <;> rename_i hp
    · simp
    · rw [ih]
      cases hf : findSub s t' with
      | none => simp
      | some j =>
        simp only [hf, Option.map_some']
        congr 1
        have harith : j + 1 + s.length = (j + s.length) + 1 := by omega
        rw [harith, List.drop_succ_cons]

theorem globGo_run : ∀ (parts : List (List Char)) (text : List Char) (pos : Nat),
    pos ≤ text.length →
    ((globGo parts text pos false).map (fun i => text.drop i) =
      matchSegsFrom (parts.filter (fun q => q ≠ [])) (text.drop pos)) ∧
    (∀ p', globGo parts text pos false = some p' → p' ≤ text.length) := by
  intro parts
  induction parts with
  | nil =>
    intro text pos hpos
    constructor
    · simp [globGo, matchSegsFrom]
    · intro p' h
      rw [globGo] at h
      cases h
      exact hpos
  | cons part rest ih =>
    intro text pos hpos
    by_cases hp : part = []
    · subst hp
      rw [globGo, if_pos rfl]
      have hfilter : (([] : List Char) :: rest).filter (fun q => q ≠ []) =
          rest.filter (fun q => q ≠ []) := by simp
      rw [hfilter]
      exact ih text pos hpos
    · rw [globGo, if_neg hp]
      have hfilter : (part :: rest).filter (fun q => q ≠ []) =
          part :: rest.filter (fun q => q ≠ []) := by simp [hp]
      rw [hfilter, matchSegsFrom, dropToAfter_eq]
      cases hf : findSub part (text.drop pos) with
      | none => simp
      | some idx =>
        have hbound := findSub_bound hf
        rw [List.length_drop] at hbound
        have hpos' : pos + idx + part.length ≤ text.length := by omega
        have hdrop : (text.drop pos).drop (idx + part.length) =
            text.drop (pos + idx + part.length) := by
          rw [List.drop_drop]
          congr 1
          omega
        have hcond : ¬((false : Bool) = true ∧ idx ≠ 0) := by simp
        simp only [Option.map_some', if_neg hcond, hdrop]
        exact ih text (pos + idx + part.length) hpos'

theorem globGo_anchor {part : List Char} (hp : part ≠ []) (rest : List (List Char))
    (text : List Char) :
    globGo (part :: rest) text 0 true =
      if part.isPrefixOf text then globGo rest text part.length false else none := by
  rw [globGo, if_neg hp, List.drop_zero]
  by_cases hpre : part.isPrefixOf text
  · rw [findSub_of_startsWith hpre, if_pos hpre]
    simp
  · rw [if_neg hpre]
    cases hf : findSub part text with
    | none => rfl
    | some idx =>
      have hidx : idx ≠ 0 := by
        rintro rfl
        cases text with
        | nil =>
          rw [findSub, if_neg hpre] at hf
          cases hf
        | cons c t' =>
          rw [findSub, if_neg hpre] at hf
          rcases Option.map_eq_some'.1 hf with ⟨j, -, hj⟩
          omega
      simp [hidx]

theorem globSpec_star_head {p : List Char} (hstar : '*' ∈ p)
    (hhead : p.head? = some '*') (t : List Char) :
    globSpec p t = specTail p (matchSegsFrom (segsOf p) t) := by
  rw [globSpec, if_pos hstar]
  cases hs : segsOf p with
  | nil => rfl
  | cons s rest => rw [globSpecRem, if_pos hhead]

theorem globSpec_anchored {p : List Char} (hstar : '*' ∈ p)
    (hhead : ¬p.head? = some '*') {s : List Char} {rest : List (List Char)}
    (hs : segsOf p = s :: rest) (t : List Char) :
    globSpec p t =
      if s.isPrefixOf t then specTail p (matchSegsFrom rest (t.drop s.length))
      else false := by
  rw [globSpec, if_pos hstar, hs, globSpecRem, if_neg hhead]
  by_cases hpre : s.isPrefixOf t
  · rw [if_pos hpre, if_pos hpre]
  · rw [if_neg hpre, if_neg hpre]
    rfl

theorem glob_match_star {p : List Char} (hlen1 : ¬(splitStar p).length = 1)
    (t : List Char) :
    glob_match p t = globTail p t (globGo (splitStar p) t 0 true) := by
  simp only [glob_match]
  rw [if_neg hlen1]
  rfl

theorem globCompare (p t : List Char) (o : Option Nat) (r : Option (List Char))
    (hmap : o.map (fun i => t.drop i) = r)
    (hb : ∀ i, o = some i → i ≤ t.length) :
    globTail p t o = specTail p r := by
  cases o with
  | none =>
    rw [Option.map_none'] at hmap
    subst hmap
    rfl
  | some pos =>
    rw [Option.map_some'] at hmap
    subst hmap
    rw [globTail, specTail]
    by_cases hlast : p.getLast? = some '*'
    · simp [hlast]
    · have hple := hb pos rfl
      simp only [hlast, List.drop_eq_nil_iff, decide_eq_decide,
        if_false, decide_False, Bool.false_or, if_neg (fun h => hlast h)]
      omega

theorem glob_match_eq_globSpec (p t : List Char) : glob_match p t = globSpec p t := by
  by_cases hstar : '*' ∈ p
  · have hlen1 : ¬(splitStar p).length = 1 := by
      rw [splitStar_length_one_iff]
      simpa using hstar
    obtain ⟨q, qs, hsplit⟩ : ∃ q qs, splitStar p = q :: qs := by
      cases h : splitStar p with
      | nil => exact absurd h (splitStar_ne_nil p)
      | cons a b => exact ⟨a, b, rfl⟩
    obtain ⟨c, p', hp⟩ : ∃ c p', p = c :: p' := by
      cases p with
      | nil => simp at hstar
      | cons a b => exact ⟨a, b, rfl⟩
    rw [glob_match_star hlen1]
    by_cases hq : q = []
    · have hc : p.head? = some '*' := by
        subst hp
        subst hq
        have := (splitStar_head_eq_nil_iff hsplit).1 rfl
        simp [this]
      rw [globSpec_star_head hstar hc]
      subst hq
      have hskip : globGo ([] :: qs) t 0 true = globGo qs t 0 false := by
        rw [globGo, if_pos rfl]
      have hsegs : segsOf p = qs.filter (fun x => x ≠ []) := by
        rw [segsOf, hsplit]
        simp
      rw [hsplit, hskip, hsegs]
      have hrun := globGo_run qs t 0 (Nat.zero_le _)
      rw [List.drop_zero] at hrun
      exact globCompare p t _ _ hrun.1 hrun.2
    · have hc : ¬p.head? = some '*' := by
        subst hp
        intro hh
        have hcc : c = '*' := by simpa using hh
        exact hq ((splitStar_head_eq_nil_iff hsplit).2 hcc)
      have hsegs : segsOf p = q :: qs.filter (fun x => x ≠ []) := by
        rw [segsOf, hsplit]
        simp [hq]
      rw [globSpec_anchored hstar hc hsegs, hsplit, globGo_anchor hq qs t]
      by_cases hpre : q.isPrefixOf t
      · rw [if_pos hpre, if_pos hpre]
        have hqlen : q.length ≤ t.length :=
          List.IsPrefix.length_le (List.isPrefixOf_iff_prefix.1 hpre)
        have hrun := globGo_run qs t q.length hqlen
        exact globCompare p t _ _ hrun.1 hrun.2
      · rw [if_neg hpre, if_neg hpre]
        rfl
  · have hlen1 : (splitStar p).length = 1 := (splitStar_length_one_iff p).2 hstar
    simp only [glob_match, globSpec, if_pos hlen1, if_neg hstar]

/-- C6: the repo include/exclude filter implements the specified glob
semantics — `glob_match` coincides with the declarative spec-side
semantics (left-to-right leftmost segment matching, anchored first segment
unless the pattern starts with `*`, exact end unless it ends with `*`), a
pattern without `*` demands exact equality, each pattern is tried against
both the bare name and the `owner/name` form, and a repo passes iff it
matches an include pattern (when any exist) and no exclude pattern. -/
theorem C6_glob_filter_semantics :
    (∀ pattern text, glob_match pattern text = globSpec pattern text) ∧
    (∀ pattern text : List Char, '*' ∉ pattern →
      (glob_match pattern text = true ↔ pattern = text)) ∧
    (∀ repos inc exc (r : Repo), r ∈ filter_repos repos inc exc ↔
      r ∈ repos ∧
      (inc = [] ∨ ∃ p ∈ inc,
        glob_match p r.full_name = true ∨ glob_match p r.name = true) ∧
      (∀ p ∈ exc,
        glob_match p r.full_name = false ∧ glob_match p r.name = false)) := by
  refine ⟨glob_match_eq_globSpec, ?_, ?_⟩
  · intro pattern text hstar
    have hlen1 : (splitStar pattern).length = 1 :=
      (splitStar_length_one_iff pattern).2 hstar
    simp only [glob_match, if_pos hlen1, decide_eq_true_eq]
  · intro repos inc exc r
    rw [filter_repos, List.mem_filter]
    refine and_congr_right fun _ => ?_
    rw [repoPasses, Bool.and_eq_true]
    apply and_congr
    · by_cases hinc : inc = []
      · subst hinc
        simp
      · rw [if_pos hinc]
        simp only [List.any_eq_true, Bool.or_eq_true, hinc, false_or]
    · by_cases hexc : exc = []
      · subst hexc
        simp
      · rw [if_pos hexc]
        simp [List.any_eq_false, Bool.or_eq_false_iff]

theorem C6_witness :
    (glob_match "a*c".data "abc".data = globSpec "a*c".data "abc".data) ∧
    (glob_match "widget".data "widget".data = true ↔ "widget".data = "widget".data) ∧
    (sampleRepo ∈ filter_repos [sampleRepo] ["w*".data] [] ↔
      sampleRepo ∈ [sampleRepo] ∧
      (["w*".data] = [] ∨ ∃ p ∈ ["w*".data],
        glob_match p sampleRepo.full_name = true ∨ glob_match p sampleRepo.name = true) ∧
      (∀ p ∈ ([] : List (List Char)),
        glob_match p sampleRepo.full_name = false ∧ glob_match p sampleRepo.name = false)) :=
  ⟨C6_glob_filter_semantics.1 "a*c".data "abc".data,
   C6_glob_filter_semantics.2.1 "widget".data "widget".data (by decide),
   C6_glob_filter_semantics.2.2 [sampleRepo] ["w*".data] [] sampleRepo⟩

/-! ### Cursor invariant lemmas -/

theorem update_navInv (s : AppState) (a : Action) (now : Int) (h : navInv s) :
    navInv (update s a now).1 := by
  cases a <;> simp only [update] <;> (repeat' split) <;>
    first
      | exact h
      | exact fun _ => rebuild_nav_tree_cursor_lt _
      | (intro hne
         have hlt := h hne
         first
           | (show s.nav_cursor - 1 < s.nav_nodes.length
              omega)
           | (show s.nav_cursor + 1 < s.nav_nodes.length
              omega))

theorem applyActions_navInv (acts : List (Action × Int)) :
    ∀ s : AppState, navInv s → navInv (applyActions s acts) := by
  induction acts with
  | nil => intro s h; exact h
  | cons p rest ih =>
    intro s h
    exact ih _ (update_navInv s p.1 p.2 h)

theorem update_contentInv_move_select (s : AppState) (a : Action) (now : Int)
    (ha : a = .MoveUp ∨ a = .MoveDown ∨ a = .Select) (h : contentInv s) :
    contentInv (update s a now).1 := by
  rcases ha with rfl | rfl | rfl
  · cases hp : s.focused_pane with
    | Navigation =>
      simp only [update, hp]
      split <;> exact h
    | Content =>
      simp only [update, hp]
      split <;> rename_i hc
      · intro hne
        have hlt := h hne
        show s.content_cursor - 1 < (current_pr_list s).length
        omega
      · exact h
  · cases hp : s.focused_pane with
    | Navigation =>
      simp only [update, hp]
      split <;> exact h
    | Content =>
      simp only [update, hp]
      split <;> rename_i hc
      · intro hne
        show s.content_cursor + 1 < (current_pr_list s).length
        omega
      · exact h
  · by_cases hp : s.focused_pane = .Navigation
    · simp only [update, if_pos hp]
      cases hn : s.nav_nodes[s.nav_cursor]? with
      | none => exact h
      | some node =>
        cases node with
        | Org org =>
          intro hne
          exact absurd rfl hne
        | Repo owner name k =>
          intro hne
          exact List.length_pos.2 hne
        | AllPrs =>
          intro hne
          exact List.length_pos.2 hne
        | MyInbox =>
          intro hne
          exact List.length_pos.2 hne
    · simp only [update, if_neg hp]
      split <;> exact h

/-- C1 counterexample: from a bounded state (both cursor invariants hold)
viewing a five-element inbox with the cursor on index 4, a `DataLoaded`
event that replaces the inbox by a two-element list leaves `contentCursor`
at 4 — outside the bounds of the now non-empty visible list — refuting the
claim for `DataLoaded` events. -/
theorem C1_counterexample :
    navInv sC1 ∧ contentInv sC1 ∧
    ¬contentInv (update sC1
      (.DataLoaded (.InboxPrs [samplePR 1 1, samplePR 2 2] ⟨0, 0, none⟩)) 0).1 := by
  decide

/-- C1 (amended): `navCursor` stays within `[0, len-1]` of a non-empty
`navNodes` under every reducer action, hence in every state reachable from
startup; `contentCursor` stays within the visible list's bounds under
`MoveUp`, `MoveDown` and `Select` (clamped, not wrapped) — but `DataLoaded`
is excluded: it does not clamp `contentCursor`, which may be left out of
bounds when the visible list shrinks. -/
theorem C1_cursor_bounds :
    (∀ (s : AppState) (a : Action) (now : Int), navInv s → navInv (update s a now).1) ∧
    (∀ (login : List Char) (names : List (List Char)) (acts : List (Action × Int)),
      navInv (applyActions (AppState.new login names) acts)) ∧
    (∀ (s : AppState) (a : Action) (now : Int),
      (a = .MoveUp ∨ a = .MoveDown ∨ a = .Select) →
      contentInv s → contentInv (update s a now).1) := by
  refine ⟨update_navInv, ?_, update_contentInv_move_select⟩
  intro login names acts
  exact applyActions_navInv acts _ (fun _ => rebuild_nav_tree_cursor_lt _)

theorem C1_witness :
    navInv (update sC1 .MoveDown 0).1 ∧
    navInv (applyActions (AppState.new "me".data []) [(.MoveDown, 0)]) ∧
    contentInv (update sC1 .MoveUp 0).1 :=
  ⟨C1_cursor_bounds.1 sC1 .MoveDown 0 (by decide),
   C1_cursor_bounds.2.1 "me".data [] [(.MoveDown, 0)],
   C1_cursor_bounds.2.2 sC1 .MoveUp 0 (Or.inl rfl) (by decide)⟩

end Ghdash
